import Mathlib

/-!
# Verification of the rga streaming-task client core

Shallow embedding of the client core of the rga repository:

* the SSE event-frame parser of `frontend/src/services/api.ts`
  (`runTaskWithSSE`): buffer splitting on blank lines, extraction of the
  `event:` / `data:` lines, isolation of payload-decoding failures;
* the step reducer of the session store (`onThinking` / `onAction`
  handlers) that folds frames into the step timeline of the open
  assistant message;
* the session store itself (`sendTask`, `stopTask`, `completeTakeover`,
  `selectSession`, `createSession`, the terminal-frame handlers) as a
  pure state-transition system over an explicit `StoreState`;
* the history conversion in `selectSession` that normalises the two
  stored conversation formats into the live `Message`/`AgentStep` shape.

JavaScript strings are modelled as `String` (or `List Char` where the
parser recursion needs structural access); JS `||` defaulting, with its
empty-string / zero falsiness, is modelled explicitly (`jsOrStr`,
`jsOrNat`).  `Date.now()` is an explicit `now : Nat` argument.
`JSON.parse` is a browser built-in, not repository code: the parsing
pipeline is parameterised by a `decode` function that may fail.
Network calls (`fetch`, the stop / takeover-complete requests) are
external collaborators; their success or failure enters the model as an
explicit boolean outcome.
-/

/-! ## Data model -/

/-- Status of a step, from the `AgentStep.status` union type. -/
inductive StepStatus where
  | thinking
  | acting
  | completed
  | error
deriving DecidableEq, Repr

/-- Opaque model of a JS `Record<string, unknown>` action object: the
reducer and history code only ever copy these around, never inspect
them, so a shallow field-map representation suffices. -/
abbrev ActionVal := List (String × String)

/-- One step of the agent timeline, from the `AgentStep` interface.
`thinkingDuration` / `actionDuration` are carried verbatim from the
payload, so their numeric type is irrelevant; `Nat` stands in for the
JS number.  `timestamp` models the `Date` as a tick. -/
structure AgentStep where
  id : String
  stepNumber : Nat
  thinking : Option String := none
  thinkingDuration : Option Nat := none
  action : Option ActionVal := none
  actionDuration : Option Nat := none
  status : StepStatus
  timestamp : Nat
deriving DecidableEq, Repr

/-- A conversation message, from the `Message` interface.  Optional
fields that the code sometimes leaves unset (`steps`, `isStreaming`,
`action`) are `Option`s, `none` meaning the JS property is absent. -/
structure Message where
  id : String
  role : String
  content : String
  steps : Option (List AgentStep) := none
  isStreaming : Option Bool := none
  action : Option ActionVal := none
  timestamp : Nat
deriving DecidableEq, Repr

/-- The decoded JSON payload of one SSE event, modelled as a JS object
via its field accessors: each field the handlers ever read is an
`Option`, `none` meaning the property is absent from the JSON. -/
structure Payload where
  chunk : Option String := none
  full : Option String := none
  duration : Option Nat := none
  action : Option ActionVal := none
  message : Option String := none
  base64 : Option String := none
  width : Option Nat := none
  height : Option Nat := none
deriving DecidableEq, Repr

/-- JS `a || d` for an optional string `a`: the empty string is falsy. -/
def jsOrStr : Option String → String → String
  | some s, d => if s = "" then d else s
  | none, d => d

/-- JS `n || d` for an optional number `n`: `0` is falsy. -/
def jsOrNat : Option Nat → Nat → Nat
  | some n, d => if n = 0 then d else n
  | none, d => d

/-! ## Step reducer (`onThinking` / `onAction` of `sendTask`) -/

/-- The fresh step built by the `onThinking` handler when the previous
step is absent or completed: `id = step-<Date.now()>`,
`stepNumber = steps.length + 1`, `thinking = data.full || data.chunk || ''`,
`status = thinking`. -/
def newThinkingStep (p : Payload) (len now : Nat) : AgentStep :=
  { id := "step-" ++ toString now
    stepNumber := len + 1
    thinking := some (jsOrStr p.full (jsOrStr p.chunk ""))
    thinkingDuration := p.duration
    status := .thinking
    timestamp := now }

/-- The `onThinking` SSE handler, restricted to its effect on the step
list: append a new step if there is no last step or the last step is
`completed`, otherwise overwrite the last step's `thinking`,
`thinkingDuration` and `status` in place. -/
def onThinking (steps : List AgentStep) (p : Payload) (now : Nat) :
    List AgentStep :=
  match steps.getLast? with
  | none => steps ++ [newThinkingStep p steps.length now]
  | some last =>
    if last.status = .completed then
      steps ++ [newThinkingStep p steps.length now]
    else
      steps.dropLast ++
        [{ last with
            thinking := some (jsOrStr p.full (jsOrStr p.chunk ""))
            thinkingDuration := p.duration
            status := .thinking }]

/-- The `onAction` SSE handler, restricted to its effect on the step
list: if at least one step exists, set the last step's `action` and
`actionDuration` from the payload and mark it `completed`; with no
steps it does nothing. -/
def onAction (steps : List AgentStep) (p : Payload) : List AgentStep :=
  match steps.getLast? with
  | none => steps
  | some last =>
    steps.dropLast ++
      [{ last with
          action := p.action
          actionDuration := p.duration
          status := .completed }]

/-- A reducer-level frame: the two frame kinds that touch the step
list, with the wall-clock tick at which a `thinking` frame arrives. -/
inductive RFrame where
  | thinking (p : Payload) (now : Nat)
  | action (p : Payload)
deriving Repr

/-- Apply one reducer frame to a step list. -/
def applyRFrame (steps : List AgentStep) : RFrame → List AgentStep
  | .thinking p now => onThinking steps p now
  | .action p => onAction steps p

/-- Fold a frame sequence into a step list, starting from the empty
timeline of a fresh assistant message. -/
def runFrames (fs : List RFrame) : List AgentStep :=
  fs.foldl applyRFrame []

/-- The timeline invariant claimed by the spec: `stepNumber`s are
exactly `1, 2, …, length`, and every step other than the last is
`completed`. -/
def goodSteps (s : List AgentStep) : Prop :=
  s.map AgentStep.stepNumber = List.range' 1 s.length ∧
  ∀ st ∈ s.dropLast, st.status = StepStatus.completed

instance (s : List AgentStep) : Decidable (goodSteps s) := by
  unfold goodSteps; infer_instance

/-! ## History conversion (`selectSession` of the session store) -/

/-- One element of the `steps` array stored inside a conversation row's
`action` column (new format), with each field optional as in the stored
JSON.  A stored status outside the four enum values never reaches the
step shape unchanged in the claims, so the enum suffices. -/
structure StoredStep where
  stepNumber : Option Nat := none
  thinking : Option String := none
  action : Option ActionVal := none
  status : Option StepStatus := none
deriving DecidableEq, Repr

/-- The `action` column of a stored conversation row: a JSON object
that may carry a `steps` array (new format); `rest` is the object
itself viewed as the opaque action record the legacy branch stores. -/
structure ActionField where
  steps : Option (List StoredStep) := none
  rest : ActionVal := []
deriving DecidableEq, Repr

/-- A stored conversation row, from the `ConversationRecord` interface
of `api.ts` (`created_at` as a tick). -/
structure ConvRecord where
  id : String
  role : String
  content : String
  thinking : Option String := none
  action : Option ActionField := none
  created_at : Nat
deriving DecidableEq, Repr

/-- JS truthiness of an optional string (`undefined` and `''` falsy). -/
def truthyStr : Option String → Bool
  | some s => !(s == "")
  | none => false

/-- Conversion of one stored step of the new format, from the `.map`
in `selectSession`: `id = <convId>-step-<index+1>`,
`stepNumber = step.stepNumber || index + 1`,
`status = step.status || 'completed'`. -/
def convertStoredStep (convId : String) (created i : Nat)
    (s : StoredStep) : AgentStep :=
  { id := convId ++ "-step-" ++ toString (i + 1)
    stepNumber := jsOrNat s.stepNumber (i + 1)
    thinking := s.thinking
    action := s.action
    status := s.status.getD .completed
    timestamp := created }

/-- The single step synthesized for a legacy-format row:
`stepNumber = 1`, `status = completed`, carrying the row's top-level
`thinking` and `action`. -/
def legacyStep (conv : ConvRecord) : AgentStep :=
  { id := conv.id ++ "-step-1"
    stepNumber := 1
    thinking := conv.thinking
    action := conv.action.map ActionField.rest
    status := .completed
    timestamp := conv.created_at }

/-- Conversion of one stored conversation row to a `Message`, from the
`conversations.map` body of `selectSession`: assistant rows whose
`action` embeds a `steps` array use the new format; otherwise a truthy
top-level `thinking` or a present `action` yields the one legacy step;
otherwise no `steps` property is set. -/
def convertConv (conv : ConvRecord) : Message :=
  let base : Message :=
    { id := conv.id
      role := conv.role
      content := conv.content
      isStreaming := some false
      timestamp := conv.created_at }
  if conv.role = "assistant" then
    match conv.action with
    | some af =>
      match af.steps with
      | some ss =>
        { base with
            steps := some (ss.mapIdx fun i s =>
              convertStoredStep conv.id conv.created_at i s) }
      | none => { base with steps := some [legacyStep conv] }
    | none =>
      if truthyStr conv.thinking then
        { base with steps := some [legacyStep conv] }
      else base
  else base

/-! ## Session store state and operations -/

/-- A session row as the store sees it. -/
structure Session where
  id : String
  agent_type : Option String := none
deriving DecidableEq, Repr

/-- The takeover flag, from the `TakeoverState` interface. -/
structure TakeoverState where
  isActive : Bool
  message : Option String := none
deriving DecidableEq, Repr

/-- The latest-screenshot slot. -/
structure Screenshot where
  base64 : String
  width : Nat
  height : Nat
deriving DecidableEq, Repr

/-- The Zustand session store, as an explicit state record.  The
`sseController` handle is modelled by an identity number (`none` = no
live connection). -/
structure StoreState where
  sessions : List Session := []
  currentSession : Option Session := none
  isCreatingSession : Bool := false
  selectedAgentType : String := "glm"
  messages : List Message := []
  isProcessing : Bool := false
  screenshot : Option Screenshot := none
  takeover : TakeoverState := { isActive := false }
  sseController : Option Nat := none
deriving DecidableEq, Repr

/-- The store's initial state (the object literal of `create`). -/
def initialState : StoreState := {}

/-- `updateLastMessage`: merge an update into the last message, a
no-op when there are no messages.  The partial-object merge is passed
as the update function. -/
def updateLast (st : StoreState) (f : Message → Message) : StoreState :=
  match st.messages.getLast? with
  | none => st
  | some m => { st with messages := st.messages.dropLast ++ [f m] }

/-- Store-level effect of the `onThinking` handler: read the last
message's steps (`lastMessage?.steps || []`), fold the frame through
the step reducer, write the result back via `updateLastMessage`. -/
def storeOnThinking (st : StoreState) (p : Payload) (now : Nat) :
    StoreState :=
  let steps := ((st.messages.getLast?).bind Message.steps).getD []
  updateLast st fun m => { m with steps := some (onThinking steps p now) }

/-- Store-level effect of the `onAction` handler: only with at least
one existing step, update the steps and mirror the action onto the
message. -/
def storeOnAction (st : StoreState) (p : Payload) : StoreState :=
  let steps := ((st.messages.getLast?).bind Message.steps).getD []
  if steps.length > 0 then
    updateLast st fun m =>
      { m with steps := some (onAction steps p), action := p.action }
  else st

/-- Store-level effect of the `onScreenshot` handler: most-recent-wins
slot update. -/
def storeOnScreenshot (st : StoreState) (p : Payload) : StoreState :=
  { st with
      screenshot := some
        { base64 := p.base64.getD ""
          width := p.width.getD 0
          height := p.height.getD 0 } }

/-- Store-level effect of the `onTakeover` handler. -/
def storeOnTakeover (st : StoreState) (p : Payload) : StoreState :=
  { st with takeover := { isActive := true, message := p.message } }

/-- Store-level effect of the `onCompleted` handler:
`content = data.message || '任务完成'`, streaming off, processing off,
connection handle released.  The step list is not touched. -/
def storeOnCompleted (st : StoreState) (p : Payload) : StoreState :=
  let st1 := updateLast st fun m =>
    { m with content := jsOrStr p.message "任务完成", isStreaming := some false }
  { st1 with isProcessing := false, sseController := none }

/-- Store-level effect of the `onStopped` handler, identical to
`onCompleted` with default text `'任务已停止'`. -/
def storeOnStopped (st : StoreState) (p : Payload) : StoreState :=
  let st1 := updateLast st fun m =>
    { m with content := jsOrStr p.message "任务已停止", isStreaming := some false }
  { st1 with isProcessing := false, sseController := none }

/-- Store-level effect of the `onError` handler: the content update is
guarded on the last message still streaming; processing and the
connection handle are cleared unconditionally. -/
def storeOnError (st : StoreState) (p : Payload) : StoreState :=
  let st1 :=
    match st.messages.getLast? with
    | some m =>
      if m.isStreaming.getD false then
        updateLast st fun m =>
          { m with
              content := "错误: " ++ p.message.getD "undefined"
              isStreaming := some false }
      else st
    | none => st
  { st1 with isProcessing := false, sseController := none }

/-- The user message appended by `sendTask`. -/
def userMessage (task : String) (now : Nat) : Message :=
  { id := "user-" ++ toString now
    role := "user"
    content := task
    timestamp := now }

/-- The streaming assistant placeholder appended by `sendTask`. -/
def assistantPlaceholder (now : Nat) : Message :=
  { id := "assistant-" ++ toString now
    role := "assistant"
    content := ""
    steps := some []
    isStreaming := some true
    timestamp := now }

/-- `sendTask`: rejected while already processing or with no selected
session; otherwise appends the user message and the assistant
placeholder, sets `isProcessing`, and — on a successful SSE start
(`startOk`) — records the connection handle; on a failed start the
`catch` clears `isProcessing` and stamps the failure text. -/
def sendTask (st : StoreState) (task : String) (now ctrl : Nat)
    (startOk : Bool) : StoreState :=
  if st.isProcessing then st
  else
    match st.currentSession with
    | none => st
    | some _ =>
      let st1 := { st with
        messages := st.messages ++ [userMessage task now, assistantPlaceholder now]
        isProcessing := true }
      if startOk then { st1 with sseController := some ctrl }
      else
        updateLast { st1 with isProcessing := false } fun m =>
          { m with content := "发送失败，请重试", isStreaming := some false }

/-- `stopTask`: a no-op unless a task is processing on a selected
session; otherwise the stop request is sent (`serverOk` is its
outcome) and the local transition completes on both the success and
the `catch` path — streaming off with a stopped / cancelled text,
`isProcessing` off, connection handle cleared. -/
def stopTask (st : StoreState) (serverOk : Bool) : StoreState :=
  if !st.isProcessing then st
  else
    match st.currentSession with
    | none => st
    | some _ =>
      let text := if serverOk then "任务已停止" else "任务已取消"
      let st1 := updateLast st fun m =>
        { m with content := text, isStreaming := some false }
      { st1 with isProcessing := false, sseController := none }

/-- `completeTakeover`: the notification call's failure is only
logged (`serverOk` does not reach the state); the takeover flag is
cleared unconditionally. -/
def completeTakeover (st : StoreState) (_serverOk : Bool) : StoreState :=
  { st with takeover := { isActive := false } }

/-- `selectSession`: abort any live connection, write the new current
session plus the cleared chat / screenshot / processing / agent-type /
handle fields, then load history (`convs = none` models a failed
fetch, leaving the cleared message list). -/
def selectSession (st : StoreState) (session : Session)
    (convs : Option (List ConvRecord)) : StoreState :=
  let st1 := { st with
    currentSession := some session
    messages := []
    screenshot := none
    isProcessing := false
    selectedAgentType := jsOrStr session.agent_type "glm"
    sseController := none }
  match convs with
  | some cs => { st1 with messages := cs.map convertConv }
  | none => st1

/-- `createSession`: abort any live connection, prepend the freshly
created session, and reset the chat, screenshot, processing, takeover
and handle state (`isCreatingSession` toggles back to `false` in the
`finally`). -/
def createSession (st : StoreState) (newSession : Session) : StoreState :=
  { st with
      sessions := newSession :: st.sessions
      currentSession := some newSession
      isCreatingSession := false
      messages := []
      screenshot := none
      isProcessing := false
      takeover := { isActive := false }
      sseController := none }

/-! ## Helper lemmas -/

theorem eq_dropLast_concat_of_getLast? {α : Type _} {l : List α} {a : α}
    (h : l.getLast? = some a) : l = l.dropLast ++ [a] := by
  have hne : l ≠ [] := by
    intro he
    subst he
    simp at h
  have hg := List.getLast?_eq_getLast l hne
  rw [h] at hg
  injection hg with hg
  rw [hg]
  exact (List.dropLast_concat_getLast hne).symm

theorem length_pos_of_getLast? {α : Type _} {l : List α} {a : α}
    (h : l.getLast? = some a) : 0 < l.length := by
  have hne : l ≠ [] := by
    intro he
    subst he
    simp at h
  exact List.length_pos.mpr hne

/-! ## C1 / C2 / C3: the step reducer -/

theorem goodSteps_nil : goodSteps [] := by
  constructor
  · rfl
  · intro st hst
    simp at hst

theorem onThinking_of_none {s : List AgentStep} (p : Payload) (now : Nat)
    (hl : s.getLast? = none) :
    onThinking s p now = s ++ [newThinkingStep p s.length now] := by
  simp only [onThinking, hl]

theorem onThinking_of_completed {s : List AgentStep} {last : AgentStep}
    (p : Payload) (now : Nat) (hl : s.getLast? = some last)
    (hc : last.status = StepStatus.completed) :
    onThinking s p now = s ++ [newThinkingStep p s.length now] := by
  simp only [onThinking, hl]
  rw [if_pos hc]

theorem onThinking_of_open {s : List AgentStep} {last : AgentStep}
    (p : Payload) (now : Nat) (hl : s.getLast? = some last)
    (hc : ¬ last.status = StepStatus.completed) :
    onThinking s p now = s.dropLast ++
      [{ last with
          thinking := some (jsOrStr p.full (jsOrStr p.chunk ""))
          thinkingDuration := p.duration
          status := StepStatus.thinking }] := by
  simp only [onThinking, hl]
  rw [if_neg hc]

theorem onAction_of_last {s : List AgentStep} {last : AgentStep} (p : Payload)
    (hl : s.getLast? = some last) :
    onAction s p = s.dropLast ++
      [{ last with
          action := p.action
          actionDuration := p.duration
          status := StepStatus.completed }] := by
  simp only [onAction, hl]

theorem goodSteps_onThinking {s : List AgentStep} (p : Payload) (now : Nat)
    (h : goodSteps s) : goodSteps (onThinking s p now) := by
  obtain ⟨hnum, hstat⟩ := h
  cases hl : s.getLast? with
  | none =>
    have hnil : s = [] := by simpa using hl
    subst hnil
    constructor
    · simp [onThinking, newThinkingStep]
    · intro st hst
      simp [onThinking] at hst
  | some last =>
    have hsplit : s = s.dropLast ++ [last] := eq_dropLast_concat_of_getLast? hl
    by_cases hc : last.status = StepStatus.completed
    · rw [onThinking_of_completed p now hl hc]
      constructor
      · rw [List.map_append, hnum]
        simp [newThinkingStep, List.range'_1_concat, Nat.add_comm]
      · intro st hst
        rw [List.dropLast_concat] at hst
        rw [hsplit] at hst
        rcases List.mem_append.mp hst with hmem | hmem
        · exact hstat st hmem
        · simp at hmem
          rw [hmem]
          exact hc
    · rw [onThinking_of_open p now hl hc]
      constructor
      · have h1 : ((s.dropLast ++
            [{ last with
                thinking := some (jsOrStr p.full (jsOrStr p.chunk ""))
                thinkingDuration := p.duration
                status := StepStatus.thinking }]).map AgentStep.stepNumber) =
            (s.dropLast ++ [last]).map AgentStep.stepNumber := by
          simp
        rw [h1, ← hsplit, hnum]
        have h2 : (s.dropLast ++
            [{ last with
                thinking := some (jsOrStr p.full (jsOrStr p.chunk ""))
                thinkingDuration := p.duration
                status := StepStatus.thinking }]).length = s.length := by
          have := length_pos_of_getLast? hl
          simp
          omega
        rw [h2]
      · intro st hst
        rw [List.dropLast_concat] at hst
        exact hstat st hst

theorem goodSteps_onAction {s : List AgentStep} (p : Payload)
    (h : goodSteps s) : goodSteps (onAction s p) := by
  obtain ⟨hnum, hstat⟩ := h
  cases hl : s.getLast? with
  | none =>
    have hnil : s = [] := by simpa using hl
    subst hnil
    exact ⟨hnum, hstat⟩
  | some last =>
    have hsplit : s = s.dropLast ++ [last] := eq_dropLast_concat_of_getLast? hl
    rw [onAction_of_last p hl]
    constructor
    · have h1 : ((s.dropLast ++
          [{ last with
              action := p.action
              actionDuration := p.duration
              status := StepStatus.completed }]).map AgentStep.stepNumber) =
          (s.dropLast ++ [last]).map AgentStep.stepNumber := by
        simp
      rw [h1, ← hsplit, hnum]
      have h2 : (s.dropLast ++
          [{ last with
              action := p.action
              actionDuration := p.duration
              status := StepStatus.completed }]).length = s.length := by
        have := length_pos_of_getLast? hl
        simp
        omega
      rw [h2]
    · intro st hst
      rw [List.dropLast_concat] at hst
      exact hstat st hst

/-- Claim C1: a `thinking` frame appends a fresh step (status
`thinking`, `stepNumber = length + 1`, thinking text
`data.full || data.chunk || ''`) exactly when the step list is empty or
its last step is `completed`; otherwise it rewrites the last step's
`thinking`, `thinkingDuration` and `status` in place and the step
count does not grow. -/
theorem thinking_frame_spec (steps : List AgentStep) (p : Payload) (now : Nat) :
    ((steps = [] ∨ ∃ last, steps.getLast? = some last ∧
        last.status = StepStatus.completed) →
      onThinking steps p now = steps ++ [newThinkingStep p steps.length now] ∧
      (newThinkingStep p steps.length now).status = StepStatus.thinking ∧
      (newThinkingStep p steps.length now).stepNumber = steps.length + 1 ∧
      (newThinkingStep p steps.length now).thinking =
        some (jsOrStr p.full (jsOrStr p.chunk "")) ∧
      (onThinking steps p now).length = steps.length + 1) ∧
    (∀ last, steps.getLast? = some last → last.status ≠ StepStatus.completed →
      onThinking steps p now = steps.dropLast ++
        [{ last with
            thinking := some (jsOrStr p.full (jsOrStr p.chunk ""))
            thinkingDuration := p.duration
            status := StepStatus.thinking }] ∧
      (onThinking steps p now).length = steps.length) := by
  constructor
  · intro h
    have happ : onThinking steps p now =
        steps ++ [newThinkingStep p steps.length now] := by
      rcases h with hnil | ⟨last, hl, hs⟩
      · subst hnil
        rfl
      · exact onThinking_of_completed p now hl hs
    refine ⟨happ, rfl, rfl, rfl, ?_⟩
    rw [happ]
    simp
  · intro last hl hs
    have hupd : onThinking steps p now = steps.dropLast ++
        [{ last with
            thinking := some (jsOrStr p.full (jsOrStr p.chunk ""))
            thinkingDuration := p.duration
            status := StepStatus.thinking }] :=
      onThinking_of_open p now hl hs
    refine ⟨hupd, ?_⟩
    rw [hupd]
    have := length_pos_of_getLast? hl
    simp
    omega

/-- C2. An `action` frame with at least one existing step rewrites the
last step with the payload's action data and status `completed`,
keeping the step count; with no steps it is a no-op. -/
theorem action_frame_spec (steps : List AgentStep) (p : Payload) :
    (∀ last, steps.getLast? = some last →
      onAction steps p = steps.dropLast ++
        [{ last with
            action := p.action
            actionDuration := p.duration
            status := StepStatus.completed }] ∧
      (onAction steps p).length = steps.length ∧
      (onAction steps p).getLast? = some
        { last with
            action := p.action
            actionDuration := p.duration
            status := StepStatus.completed }) ∧
    (steps = [] → onAction steps p = steps) := by
  constructor
  · intro last hl
    have hupd : onAction steps p = steps.dropLast ++
        [{ last with
            action := p.action
            actionDuration := p.duration
            status := StepStatus.completed }] :=
      onAction_of_last p hl
    refine ⟨hupd, ?_, ?_⟩
    · rw [hupd]
      have := length_pos_of_getLast? hl
      simp
      omega
    · rw [hupd]
      exact List.getLast?_concat _
  · intro hnil
    subst hnil
    rfl

/-- C3. Folding any sequence of `thinking` / `action` frames from the
empty timeline yields a step list whose `stepNumber`s are exactly
`1, …, length` and in which every step but the last is `completed`. -/
theorem step_timeline_invariant (fs : List RFrame) : goodSteps (runFrames fs) := by
  suffices h : ∀ s, goodSteps s → goodSteps (fs.foldl applyRFrame s) from
    h [] goodSteps_nil
  induction fs with
  | nil => intro s hs; exact hs
  | cons f fs ih =>
    intro s hs
    rw [List.foldl_cons]
    apply ih
    cases f with
    | thinking p now => exact goodSteps_onThinking p now hs
    | action p => exact goodSteps_onAction p hs

/-- Witness for C1 at concrete inputs: both branches of the theorem
fire on explicit step lists. -/
theorem thinking_frame_spec_witness :
    onThinking [] { full := some "plan A" } 7 =
      [newThinkingStep { full := some "plan A" } 0 7] ∧
    (onThinking
      [{ id := "s", stepNumber := 1, status := StepStatus.thinking,
         timestamp := 0 }] { chunk := some "more" } 9).length = 1 := by
  constructor
  · exact ((thinking_frame_spec [] { full := some "plan A" } 7).1
      (Or.inl rfl)).1
  · exact ((thinking_frame_spec
      [{ id := "s", stepNumber := 1, status := StepStatus.thinking,
         timestamp := 0 }] { chunk := some "more" } 9).2
      _ rfl (by decide)).2

/-- Witness for C2 at concrete inputs: the update branch on a
one-step list and the no-op branch on the empty list. -/
theorem action_frame_spec_witness :
    (onAction
      [{ id := "s", stepNumber := 1, status := StepStatus.thinking,
         timestamp := 0 }] { action := some [("action", "tap")] }).length = 1 ∧
    onAction [] { action := some [("action", "tap")] } = [] := by
  constructor
  · exact ((action_frame_spec
      [{ id := "s", stepNumber := 1, status := StepStatus.thinking,
         timestamp := 0 }] { action := some [("action", "tap")] }).1
      _ rfl).2.1
  · exact (action_frame_spec [] { action := some [("action", "tap")] }).2 rfl

/-! ## C4: history conversion -/

/-- Claim C4: converting a stored assistant row yields the embedded
`steps` array (new shape) with per-position defaults for a missing
`stepNumber` / `status`, or exactly one completed step with
`stepNumber = 1` carrying the top-level `thinking` and `action`
(legacy shape), or no steps when neither shape is present. -/
theorem history_conversion_spec (conv : ConvRecord)
    (hrole : conv.role = "assistant") :
    (∀ af ss, conv.action = some af → af.steps = some ss →
      ∃ l, (convertConv conv).steps = some l ∧ l.length = ss.length ∧
        ∀ i (hi : i < ss.length) (hl : i < l.length),
          (l.get ⟨i, hl⟩).thinking = (ss.get ⟨i, hi⟩).thinking ∧
          (l.get ⟨i, hl⟩).action = (ss.get ⟨i, hi⟩).action ∧
          ((ss.get ⟨i, hi⟩).stepNumber = none →
            (l.get ⟨i, hl⟩).stepNumber = i + 1) ∧
          (∀ n, (ss.get ⟨i, hi⟩).stepNumber = some n → n ≠ 0 →
            (l.get ⟨i, hl⟩).stepNumber = n) ∧
          ((ss.get ⟨i, hi⟩).status = none →
            (l.get ⟨i, hl⟩).status = StepStatus.completed) ∧
          (∀ stt, (ss.get ⟨i, hi⟩).status = some stt →
            (l.get ⟨i, hl⟩).status = stt)) ∧
    (∀ af, conv.action = some af → af.steps = none →
      (convertConv conv).steps = some [legacyStep conv] ∧
      (legacyStep conv).stepNumber = 1 ∧
      (legacyStep conv).status = StepStatus.completed ∧
      (legacyStep conv).thinking = conv.thinking ∧
      (legacyStep conv).action = some af.rest) ∧
    (conv.action = none → truthyStr conv.thinking = true →
      (convertConv conv).steps = some [legacyStep conv] ∧
      (legacyStep conv).stepNumber = 1 ∧
      (legacyStep conv).status = StepStatus.completed ∧
      (legacyStep conv).thinking = conv.thinking ∧
      (legacyStep conv).action = none) ∧
    (conv.action = none → truthyStr conv.thinking = false →
      (convertConv conv).steps = none) := by
  refine ⟨?_, ?_, ?_, ?_⟩
  · intro af ss ha hs
    refine ⟨ss.mapIdx fun i s => convertStoredStep conv.id conv.created_at i s,
      ?_, ?_, ?_⟩
    · simp [convertConv, hrole, ha, hs]
    · simp
    · intro i hi hl
      simp only [List.get_eq_getElem, List.getElem_mapIdx]
      refine ⟨rfl, rfl, ?_, ?_, ?_, ?_⟩
      · intro hn
        simp [convertStoredStep, jsOrNat, hn]
      · intro n hn hn0
        simp [convertStoredStep, jsOrNat, hn, hn0]
      · intro hst
        simp [convertStoredStep, hst]
      · intro stt hst
        simp [convertStoredStep, hst]
  · intro af ha hs
    refine ⟨?_, rfl, rfl, rfl, ?_⟩
    · simp [convertConv, hrole, ha, hs]
    · simp [legacyStep, ha]
  · intro ha ht
    refine ⟨?_, rfl, rfl, rfl, ?_⟩
    · simp [convertConv, hrole, ha, ht]
    · simp [legacyStep, ha]
  · intro ha ht
    simp [convertConv, hrole, ha, ht]

/-- Concrete new-format row used by the C4 witness. -/
def convRowNew : ConvRecord :=
  { id := "c1", role := "assistant", content := "done",
    action := some { steps := some [{ thinking := some "t" }] },
    created_at := 3 }

/-- Concrete legacy-format row used by the C4 witness. -/
def convRowLegacy : ConvRecord :=
  { id := "c2", role := "assistant", content := "done",
    thinking := some "old",
    action := some { steps := none, rest := [("action", "tap")] },
    created_at := 4 }

/-- Concrete plain-text row used by the C4 witness. -/
def convRowPlain : ConvRecord :=
  { id := "c3", role := "assistant", content := "plain", created_at := 5 }

/-- Witness for C4 at a concrete row for each of the three shapes. -/
theorem history_conversion_spec_witness :
    (∃ l, (convertConv convRowNew).steps = some l ∧ l.length = 1) ∧
    (convertConv convRowLegacy).steps = some [legacyStep convRowLegacy] ∧
    (convertConv convRowPlain).steps = none := by
  refine ⟨?_, ?_, ?_⟩
  · obtain ⟨l, hl, hlen, -⟩ :=
      (history_conversion_spec convRowNew rfl).1 _ _ rfl rfl
    exact ⟨l, hl, hlen⟩
  · exact ((history_conversion_spec convRowLegacy rfl).2.1 _ rfl rfl).1
  · exact (history_conversion_spec convRowPlain rfl).2.2.2 rfl rfl

/-! ## Store-level lemmas -/

theorem updateLast_of_getLast? {st : StoreState} {m : Message}
    (f : Message → Message) (hm : st.messages.getLast? = some m) :
    updateLast st f = { st with messages := st.messages.dropLast ++ [f m] } := by
  simp only [updateLast, hm]

theorem length_messages_updateLast (st : StoreState) (f : Message → Message) :
    (updateLast st f).messages.length = st.messages.length := by
  cases hm : st.messages.getLast? with
  | none => simp only [updateLast, hm]
  | some m =>
    rw [updateLast_of_getLast? f hm]
    have := length_pos_of_getLast? hm
    simp
    omega

/-! ## C8: terminal frames close the message but leave the steps -/

/-- Claim C8: with a task open (non-empty messages, last one
streaming), a `completed` / `stopped` frame sets the last message's
content from the payload message (with the respective default texts),
turns streaming and processing off and releases the connection handle,
leaving the `steps` list untouched; an `error` frame does the same but
records `错误: <message>`. -/
theorem terminal_frame_spec (st : StoreState) (p : Payload) (m : Message)
    (hm : st.messages.getLast? = some m) (hstream : m.isStreaming = some true) :
    (storeOnCompleted st p).messages = st.messages.dropLast ++
      [{ m with content := jsOrStr p.message "任务完成", isStreaming := some false }] ∧
    (storeOnCompleted st p).isProcessing = false ∧
    (storeOnCompleted st p).sseController = none ∧
    ((storeOnCompleted st p).messages.getLast?).bind Message.steps = m.steps ∧
    (storeOnStopped st p).messages = st.messages.dropLast ++
      [{ m with content := jsOrStr p.message "任务已停止", isStreaming := some false }] ∧
    (storeOnStopped st p).isProcessing = false ∧
    (storeOnStopped st p).sseController = none ∧
    ((storeOnStopped st p).messages.getLast?).bind Message.steps = m.steps ∧
    (storeOnError st p).messages = st.messages.dropLast ++
      [{ m with content := "错误: " ++ p.message.getD "undefined",
                isStreaming := some false }] ∧
    (storeOnError st p).isProcessing = false ∧
    (storeOnError st p).sseController = none ∧
    ((storeOnError st p).messages.getLast?).bind Message.steps = m.steps := by
  have hcompleted : (storeOnCompleted st p).messages = st.messages.dropLast ++
      [{ m with content := jsOrStr p.message "任务完成", isStreaming := some false }] := by
    unfold storeOnCompleted
    rw [updateLast_of_getLast? _ hm]
  have hstopped : (storeOnStopped st p).messages = st.messages.dropLast ++
      [{ m with content := jsOrStr p.message "任务已停止", isStreaming := some false }] := by
    unfold storeOnStopped
    rw [updateLast_of_getLast? _ hm]
  have herror : (storeOnError st p).messages = st.messages.dropLast ++
      [{ m with content := "错误: " ++ p.message.getD "undefined",
                isStreaming := some false }] := by
    unfold storeOnError
    rw [hm]
    simp only [hstream, Option.getD_some, if_true]
    rw [updateLast_of_getLast? _ hm]
  refine ⟨hcompleted, rfl, rfl, ?_, hstopped, rfl, rfl, ?_, herror, rfl, rfl, ?_⟩
  · rw [hcompleted, List.getLast?_concat]
    rfl
  · rw [hstopped, List.getLast?_concat]
    rfl
  · rw [herror, List.getLast?_concat]
    rfl

/-- Witness for C8 at a concrete one-message state. -/
theorem terminal_frame_spec_witness :
    (storeOnCompleted
      { messages := [assistantPlaceholder 0], isProcessing := true,
        sseController := some 1 }
      { message := some "done" }).isProcessing = false ∧
    (storeOnError
      { messages := [assistantPlaceholder 0], isProcessing := true,
        sseController := some 1 }
      { message := some "boom" }).messages =
      [{ assistantPlaceholder 0 with
          content := "错误: boom"
          isStreaming := some false }] := by
  have h := terminal_frame_spec
    { messages := [assistantPlaceholder 0], isProcessing := true,
      sseController := some 1 }
    { message := some "boom" } (assistantPlaceholder 0) rfl rfl
  refine ⟨?_, ?_⟩
  · exact (terminal_frame_spec
      { messages := [assistantPlaceholder 0], isProcessing := true,
        sseController := some 1 }
      { message := some "done" } (assistantPlaceholder 0) rfl rfl).2.1
  · rw [h.2.2.2.2.2.2.2.2.1]
    rfl

/-! ## C7: side-channel failures never block the local transition -/

/-- Claim C7: with a task processing on a selected session, `stopTask`
ends with processing off, the handle cleared and the last message
closed with a stopped / cancelled text, for both outcomes of the stop
request; `completeTakeover` clears the takeover flag for both
outcomes of the notification call. -/
theorem side_channel_local_transition (st : StoreState) (ok : Bool)
    (m : Message) (s : Session) (hproc : st.isProcessing = true)
    (hsess : st.currentSession = some s)
    (hm : st.messages.getLast? = some m) :
    (stopTask st ok).isProcessing = false ∧
    (stopTask st ok).sseController = none ∧
    (stopTask st ok).messages.getLast? = some
      { m with content := if ok then "任务已停止" else "任务已取消",
               isStreaming := some false } ∧
    (∀ st2 : StoreState, ∀ ok2 : Bool,
      (completeTakeover st2 ok2).takeover.isActive = false) := by
  have hstop : stopTask st ok =
      { (updateLast st fun mm =>
          { mm with content := if ok then "任务已停止" else "任务已取消",
                    isStreaming := some false }) with
        isProcessing := false, sseController := none } := by
    unfold stopTask
    rw [hproc, hsess]
    rfl
  refine ⟨by rw [hstop], by rw [hstop], ?_, fun st2 ok2 => rfl⟩
  rw [hstop]
  show (updateLast st _).messages.getLast? = _
  rw [updateLast_of_getLast? _ hm, List.getLast?_concat]

/-- Witness for C7: concrete processing state, failing server call. -/
theorem side_channel_local_transition_witness :
    (stopTask
      { currentSession := some { id := "s" },
        messages := [assistantPlaceholder 0], isProcessing := true,
        sseController := some 1 } false).isProcessing = false ∧
    (stopTask
      { currentSession := some { id := "s" },
        messages := [assistantPlaceholder 0], isProcessing := true,
        sseController := some 1 } false).sseController = none := by
  have h := side_channel_local_transition
    { currentSession := some { id := "s" },
      messages := [assistantPlaceholder 0], isProcessing := true,
      sseController := some 1 } false (assistantPlaceholder 0)
    { id := "s" } rfl rfl rfl
  exact ⟨h.1, h.2.1⟩

/-! ## C6: sendTask guard versus the takeover flag -/

/-- Session used to build the C6 counterexample state. -/
def cexSession : Session := { id := "s1", agent_type := some "glm" }

/-- A reachable state with the takeover request still active but no
task processing: send a task, receive a `takeover` frame, then receive
a `completed` frame before the user acknowledges the takeover. -/
def cexState : StoreState :=
  storeOnCompleted
    (storeOnTakeover
      (sendTask (selectSession initialState cexSession (some []))
        "task one" 1 1 true)
      { message := some "please login" })
    { message := some "done" }

/-- Counterexample to C6 as stated: in the concrete reachable state
`cexState` the takeover request is active on the current session, yet
`sendTask` is not rejected — it appends the user message and the
assistant placeholder and starts processing. -/
theorem sendTask_takeover_counterexample :
    cexState.takeover.isActive = true ∧
    cexState.currentSession = some cexSession ∧
    cexState.isProcessing = false ∧
    (sendTask cexState "task two" 5 2 true).messages.length =
      cexState.messages.length + 2 ∧
    (sendTask cexState "task two" 5 2 true).isProcessing = true :=
  ⟨rfl, rfl, rfl, rfl, rfl⟩

/-- Claim C6 as amended: `sendTask` is rejected as a no-op exactly when
a task is already processing or no session is selected; the takeover
flag itself is never consulted, so a takeover request only blocks
`sendTask` while `isProcessing` is still true. -/
theorem sendTask_guard_spec (st : StoreState) (task : String)
    (now ctrl : Nat) (ok : Bool) :
    (st.isProcessing = true → sendTask st task now ctrl ok = st) ∧
    (st.currentSession = none → sendTask st task now ctrl ok = st) ∧
    (st.isProcessing = false → ∀ s, st.currentSession = some s →
      (sendTask st task now ctrl ok).messages.length =
        st.messages.length + 2 ∧
      (ok = true → sendTask st task now ctrl ok =
        { st with
            messages := st.messages ++
              [userMessage task now, assistantPlaceholder now]
            isProcessing := true
            sseController := some ctrl })) := by
  refine ⟨?_, ?_, ?_⟩
  · intro hproc
    unfold sendTask
    rw [hproc]
    rfl
  · intro hsess
    unfold sendTask
    rw [hsess]
    cases hb : st.isProcessing <;> rfl
  · intro hproc s hsess
    have hbase : sendTask st task now ctrl ok =
        (if ok then
          { st with
              messages := st.messages ++
                [userMessage task now, assistantPlaceholder now]
              isProcessing := true
              sseController := some ctrl }
        else
          updateLast
            { st with
                messages := st.messages ++
                  [userMessage task now, assistantPlaceholder now]
                isProcessing := false }
            fun m => { m with content := "发送失败，请重试",
                              isStreaming := some false }) := by
      unfold sendTask
      rw [hproc, hsess]
      cases ok <;> rfl
    constructor
    · rw [hbase]
      cases ok with
      | true => simp
      | false =>
        simp only [if_neg Bool.false_ne_true]
        rw [length_messages_updateLast]
        simp
    · intro hok
      rw [hbase, hok]
      rfl

/-- Witness for the amended C6: rejection while processing, rejection
with no session, and the two-message append on the happy path. -/
theorem sendTask_guard_spec_witness :
    sendTask { isProcessing := true, currentSession := some cexSession }
      "t" 0 1 true =
      { isProcessing := true, currentSession := some cexSession } ∧
    sendTask initialState "t" 0 1 true = initialState ∧
    (sendTask { currentSession := some cexSession }
        "t" 0 1 true).messages.length = 2 := by
  refine ⟨?_, ?_, ?_⟩
  · exact (sendTask_guard_spec
      { isProcessing := true, currentSession := some cexSession }
      "t" 0 1 true).1 rfl
  · exact (sendTask_guard_spec initialState "t" 0 1 true).2.1 rfl
  · exact ((sendTask_guard_spec { currentSession := some cexSession }
      "t" 0 1 true).2.2 rfl cexSession rfl).1

/-! ## C10: session switch keeps the takeover flag -/

/-- Claim C10: `selectSession` writes only the current session, the
message list, the screenshot, the processing flag, the agent type and
the connection handle — the takeover flag (and the session list and
creation flag) pass through unchanged, so an active takeover request
survives a session switch; `createSession` by contrast resets the
takeover flag to inactive. -/
theorem session_switch_takeover_spec (st : StoreState) (s : Session)
    (convs : Option (List ConvRecord)) (ns : Session) :
    (selectSession st s convs).takeover = st.takeover ∧
    (selectSession st s convs).sessions = st.sessions ∧
    (selectSession st s convs).isCreatingSession = st.isCreatingSession ∧
    (selectSession st s convs).currentSession = some s ∧
    (selectSession st s convs).screenshot = none ∧
    (selectSession st s convs).isProcessing = false ∧
    (selectSession st s convs).selectedAgentType = jsOrStr s.agent_type "glm" ∧
    (selectSession st s convs).sseController = none ∧
    (selectSession st s convs).messages =
      (convs.getD []).map convertConv ∧
    (createSession st ns).takeover = { isActive := false } := by
  unfold selectSession createSession
  cases convs <;> simp

/-! ## Event frame parser (`runTaskWithSSE` of `api.ts`)

The raw text buffer is modelled as `List Char`.  `buffer.split('\n\n')`
is `splitNN`, a greedy leftmost splitter on two consecutive newlines,
exactly JS `String.split` semantics; `events.pop() || ''` keeps the
last piece as the new buffer. -/

/-- Prepend a character to the first piece of a split result. -/
def consHead (c : Char) : List (List Char) → List (List Char)
  | [] => [[c]]
  | h :: t => (c :: h) :: t

/-- JS `s.split('\n\n')`: greedy leftmost split on two consecutive
newlines; always returns at least one (possibly empty) piece. -/
def splitNN : List Char → List (List Char)
  | [] => [[]]
  | [c] => [[c]]
  | c1 :: c2 :: rest =>
    if c1 = '\n' ∧ c2 = '\n' then [] :: splitNN rest
    else consHead c1 (splitNN (c2 :: rest))

/-- JS `s.split('\n')`: split on single newlines. -/
def splitN1 : List Char → List (List Char)
  | [] => [[]]
  | c :: rest =>
    if c = '\n' then [] :: splitN1 rest else consHead c (splitN1 rest)

/-- Whether a character list contains two consecutive newlines (a
complete-frame terminator). -/
def hasNN : List Char → Bool
  | [] => false
  | [_] => false
  | c1 :: c2 :: rest =>
    if c1 = '\n' ∧ c2 = '\n' then true else hasNN (c2 :: rest)

/-- Rejoin split pieces with the two-newline separator (left inverse
of `splitNN`, used to state that the parser consumes exactly the
complete frames). -/
def joinNN : List (List Char) → List Char
  | [] => []
  | [p] => p
  | p :: q :: rest => p ++ '\n' :: '\n' :: joinNN (q :: rest)

/-- One iteration of the `runTaskWithSSE` read loop on the buffer:
append the chunk, split on blank lines, keep the trailing (possibly
incomplete) piece as the new buffer and hand the complete frames on. -/
def sseFeed (buf chunk : List Char) : List (List Char) × List Char :=
  let events := splitNN (buf ++ chunk)
  (events.dropLast, events.getLastD [])

/-- The `event: ` line marker. -/
def eventMark : List Char := "event: ".toList

/-- The `data: ` line marker. -/
def dataMark : List Char := "data: ".toList

/-- The line scan of `runTaskWithSSE`: fold over the frame's lines,
the last `event: ` line winning for the kind and the last `data: `
line winning for the payload text, both starting empty. -/
def extractTypeData (lines : List (List Char)) : List Char × List Char :=
  lines.foldl
    (fun acc line =>
      if eventMark.isPrefixOf line then (line.drop 7, acc.2)
      else if dataMark.isPrefixOf line then (acc.1, line.drop 6) else acc)
    ([], [])

/-- Parse one frame string: skip blank frames, frames missing the
kind or the data line, and frames whose payload fails to decode
(`JSON.parse` modelled by the `decode` parameter); otherwise yield the
kind and the decoded payload. -/
def parseEventStr (decode : List Char → Option Payload) (e : List Char) :
    Option (List Char × Payload) :=
  if e.all Char.isWhitespace then none
  else if (extractTypeData (splitN1 e)).1 = [] ∨
          (extractTypeData (splitN1 e)).2 = [] then none
  else
    match decode (extractTypeData (splitN1 e)).2 with
    | none => none
    | some p => some ((extractTypeData (splitN1 e)).1, p)

/-- The `switch (eventType)` dispatch of `runTaskWithSSE`, wired to
the store handlers; an unknown kind falls through with no effect. -/
def dispatchEvent (st : StoreState) (ty : List Char) (p : Payload)
    (now : Nat) : StoreState :=
  if ty = "ready".toList then st
  else if ty = "thinking".toList then storeOnThinking st p now
  else if ty = "action".toList then storeOnAction st p
  else if ty = "screenshot".toList then storeOnScreenshot st p
  else if ty = "takeover".toList then storeOnTakeover st p
  else if ty = "completed".toList then storeOnCompleted st p
  else if ty = "error".toList then storeOnError st p
  else if ty = "stopped".toList then storeOnStopped st p
  else st

/-- Process one frame string against the store: malformed frames are
dropped, well-formed ones dispatched. -/
def handleEventStr (decode : List Char → Option Payload) (now : Nat)
    (st : StoreState) (e : List Char) : StoreState :=
  match parseEventStr decode e with
  | none => st
  | some (ty, p) => dispatchEvent st ty p now

/-- Process a list of complete frame strings in arrival order. -/
def processEvents (decode : List Char → Option Payload) (st : StoreState)
    (es : List (List Char)) (now : Nat) : StoreState :=
  es.foldl (handleEventStr decode now) st

/-! ## Splitter lemmas for C9 -/

theorem consHead_ne_nil (c : Char) (l : List (List Char)) :
    consHead c l ≠ [] := by
  cases l <;> simp [consHead]

theorem consHead_cons (c : Char) (y : List Char) (t : List (List Char)) :
    consHead c (y :: t) = (c :: y) :: t := rfl

theorem splitNN_ne_nil (a : List Char) : splitNN a ≠ [] := by
  match a with
  | [] => simp [splitNN]
  | [c] => simp [splitNN]
  | c1 :: c2 :: rest =>
    simp only [splitNN]
    split
    · simp
    · exact consHead_ne_nil _ _

theorem getLastD_cons_of_ne_nil {α : Type _} (x d : α) {l : List α}
    (h : l ≠ []) : (x :: l).getLastD d = l.getLastD d := by
  cases l with
  | nil => exact absurd rfl h
  | cons y t => simp

/-- Streaming property of the greedy blank-line splitter: when `a` is
a whole number of complete frames (its split ends with an empty
piece), splitting `a ++ b` is splitting `a` and `b` separately. -/
theorem splitNN_append (a b : List Char)
    (h : (splitNN a).getLastD [] = []) :
    splitNN (a ++ b) = (splitNN a).dropLast ++ splitNN b := by
  match a with
  | [] => simp [splitNN]
  | [c] => simp [splitNN] at h
  | c1 :: c2 :: rest =>
    by_cases hnl : c1 = '\n' ∧ c2 = '\n'
    · obtain ⟨h1, h2⟩ := hnl
      subst h1
      subst h2
      have hne := splitNN_ne_nil rest
      have hr : (splitNN rest).getLastD [] = [] := by
        have hh : splitNN ('\n' :: '\n' :: rest) = [] :: splitNN rest := by
          simp [splitNN]
        rw [hh, getLastD_cons_of_ne_nil _ _ hne] at h
        exact h
      have ih := splitNN_append rest b hr
      have hh : splitNN ('\n' :: '\n' :: rest) = [] :: splitNN rest := by
        simp [splitNN]
      have hh2 : splitNN (('\n' :: '\n' :: rest) ++ b) =
          [] :: splitNN (rest ++ b) := by
        simp [splitNN]
      rw [hh2, ih, hh, List.dropLast_cons_of_ne_nil hne]
      rfl
    · have hL := splitNN_ne_nil (c2 :: rest)
      obtain ⟨y, t, hyt⟩ : ∃ y t, splitNN (c2 :: rest) = y :: t := by
        cases hc : splitNN (c2 :: rest) with
        | nil => exact absurd hc hL
        | cons y t => exact ⟨y, t, rfl⟩
      have hh : splitNN (c1 :: c2 :: rest) =
          consHead c1 (splitNN (c2 :: rest)) := by
        simp only [splitNN, if_neg hnl]
      cases t with
      | nil =>
        exfalso
        rw [hh, hyt] at h
        simp [consHead] at h
      | cons z t2 =>
        have htne : (z :: t2 : List (List Char)) ≠ [] := by simp
        have hr : (splitNN (c2 :: rest)).getLastD [] = [] := by
          rw [hh, hyt, consHead_cons] at h
          rw [getLastD_cons_of_ne_nil _ _ htne] at h
          rw [hyt, getLastD_cons_of_ne_nil _ _ htne]
          exact h
        have ih := splitNN_append (c2 :: rest) b hr
        have hh2 : splitNN ((c1 :: c2 :: rest) ++ b) =
            consHead c1 (splitNN ((c2 :: rest) ++ b)) := by
          simp only [List.cons_append, splitNN, if_neg hnl]
          rfl
        rw [hh2, ih, hh, hyt]
        simp [consHead]

theorem splitNN_exists_cons (a : List Char) :
    ∃ y t, splitNN a = y :: t := by
  cases hc : splitNN a with
  | nil => exact absurd hc (splitNN_ne_nil a)
  | cons y t => exact ⟨y, t, rfl⟩

theorem splitNN_head_cases (c : Char) (rest : List Char) :
    (splitNN (c :: rest)).head? = some [] ∨
    ∃ t, (splitNN (c :: rest)).head? = some (c :: t) := by
  match rest with
  | [] => exact Or.inr ⟨[], rfl⟩
  | c2 :: rest2 =>
    by_cases hnl : c = '\n' ∧ c2 = '\n'
    · left
      simp [splitNN, hnl]
    · right
      obtain ⟨y, t, hyt⟩ := splitNN_exists_cons (c2 :: rest2)
      exact ⟨y, by simp [splitNN, if_neg hnl, hyt, consHead]⟩

/-- Every piece produced by the blank-line splitter is itself free of
the frame terminator: only complete frames are consumed and the
retained tail is a partial frame. -/
theorem hasNN_splitNN (a : List Char) : ∀ p ∈ splitNN a, hasNN p = false := by
  match a with
  | [] =>
    intro p hp
    simp [splitNN] at hp
    subst hp
    rfl
  | [c] =>
    intro p hp
    simp [splitNN] at hp
    subst hp
    rfl
  | c1 :: c2 :: rest =>
    intro p hp
    by_cases hnl : c1 = '\n' ∧ c2 = '\n'
    · rw [show splitNN (c1 :: c2 :: rest) = [] :: splitNN rest from by
        simp [splitNN, hnl]] at hp
      rcases List.mem_cons.mp hp with h | h
      · subst h
        rfl
      · exact hasNN_splitNN rest p h
    · obtain ⟨y, t, hyt⟩ := splitNN_exists_cons (c2 :: rest)
      rw [show splitNN (c1 :: c2 :: rest) = (c1 :: y) :: t from by
        simp [splitNN, if_neg hnl, hyt, consHead]] at hp
      rcases List.mem_cons.mp hp with h | h
      · subst h
        have hy : hasNN y = false :=
          hasNN_splitNN (c2 :: rest) y (by rw [hyt]; exact List.mem_cons_self _ _)
        rcases splitNN_head_cases c2 rest with hh | ⟨t2, hh⟩
        · rw [hyt] at hh
          simp at hh
          rw [hh]
          rfl
        · rw [hyt] at hh
          simp at hh
          rw [hh] at hy ⊢
          rw [show hasNN (c1 :: c2 :: t2) = hasNN (c2 :: t2) from by
            simp [hasNN, hnl]]
          exact hy
      · exact hasNN_splitNN (c2 :: rest) p (by rw [hyt]; exact List.mem_cons_of_mem _ h)

/-- The splitter loses nothing: rejoining the pieces with the
terminator reconstructs the input buffer. -/
theorem joinNN_splitNN (a : List Char) : joinNN (splitNN a) = a := by
  match a with
  | [] => rfl
  | [c] => rfl
  | c1 :: c2 :: rest =>
    by_cases hnl : c1 = '\n' ∧ c2 = '\n'
    · obtain ⟨h1, h2⟩ := hnl
      subst h1
      subst h2
      obtain ⟨y, t, hyt⟩ := splitNN_exists_cons rest
      have ih := joinNN_splitNN rest
      rw [show splitNN ('\n' :: '\n' :: rest) = [] :: splitNN rest from by
        simp [splitNN]]
      rw [hyt] at ih ⊢
      rw [show joinNN ([] :: y :: t) = '\n' :: '\n' :: joinNN (y :: t) from rfl]
      rw [ih]
    · obtain ⟨y, t, hyt⟩ := splitNN_exists_cons (c2 :: rest)
      have ih := joinNN_splitNN (c2 :: rest)
      rw [hyt] at ih
      rw [show splitNN (c1 :: c2 :: rest) = (c1 :: y) :: t from by
        simp [splitNN, if_neg hnl, hyt, consHead]]
      cases t with
      | nil =>
        rw [show joinNN [c1 :: y] = c1 :: y from rfl]
        rw [show joinNN [y] = y from rfl] at ih
        rw [ih]
      | cons z t2 =>
        rw [show joinNN ((c1 :: y) :: z :: t2) =
          (c1 :: y) ++ '\n' :: '\n' :: joinNN (z :: t2) from rfl]
        rw [show joinNN (y :: z :: t2) =
          y ++ '\n' :: '\n' :: joinNN (z :: t2) from rfl] at ih
        rw [List.cons_append, ih]

theorem getLastD_append_of_ne_nil {α : Type _} (l l' : List α) (d : α)
    (h : l' ≠ []) : (l ++ l').getLastD d = l'.getLastD d := by
  have hx := List.getLast?_eq_getLast l' h
  simp [List.getLastD_eq_getLast?, List.getLast?_append, hx]

theorem getLastD_mem {α : Type _} {l : List α} (d : α) (h : l ≠ []) :
    l.getLastD d ∈ l := by
  have hx := List.getLast?_eq_getLast l h
  simp only [List.getLastD_eq_getLast?, hx, Option.getD_some]
  exact List.getLast_mem h

theorem dropLast_concat_getLastD {α : Type _} {l : List α} (d : α)
    (h : l ≠ []) : l.dropLast ++ [l.getLastD d] = l := by
  have hx := List.getLast?_eq_getLast l h
  simp only [List.getLastD_eq_getLast?, hx, Option.getD_some]
  exact List.dropLast_concat_getLast h

/-! ## C9: chunked feeding of the frame parser -/

/-- Claim C9: when the byte buffer is cut at a frame boundary (the
first chunk is a whole number of terminated frames), feeding the two
chunks in sequence yields exactly the frames of each chunk in order,
identical to feeding the whole buffer at once — nothing duplicated or
lost at the boundary; moreover only complete frames are consumed (no
piece contains a terminator and rejoining frames and tail restores
the buffer) and the trailing partial frame is retained as the new
buffer. -/
theorem parser_chunk_split (b1 b2 : List Char)
    (h : (splitNN b1).getLastD [] = []) :
    (sseFeed [] b1).2 = [] ∧
    (sseFeed [] b1).1 = (splitNN b1).dropLast ∧
    (sseFeed (sseFeed [] b1).2 b2).1 = (sseFeed [] b2).1 ∧
    (sseFeed [] b1).1 ++ (sseFeed (sseFeed [] b1).2 b2).1 =
      (sseFeed [] (b1 ++ b2)).1 ∧
    (sseFeed (sseFeed [] b1).2 b2).2 = (sseFeed [] (b1 ++ b2)).2 ∧
    hasNN (sseFeed [] (b1 ++ b2)).2 = false ∧
    joinNN ((sseFeed [] (b1 ++ b2)).1 ++ [(sseFeed [] (b1 ++ b2)).2]) =
      b1 ++ b2 := by
  have hb2 := splitNN_ne_nil b2
  have hb12 := splitNN_ne_nil (b1 ++ b2)
  have h2 : (sseFeed [] b1).2 = [] := by
    simp only [sseFeed, List.nil_append]
    exact h
  have hsplit : splitNN (b1 ++ b2) = (splitNN b1).dropLast ++ splitNN b2 :=
    splitNN_append b1 b2 h
  refine ⟨h2, rfl, ?_, ?_, ?_, ?_, ?_⟩
  · rw [h2]
  · rw [h2]
    show (splitNN b1).dropLast ++ (splitNN b2).dropLast =
      (splitNN (b1 ++ b2)).dropLast
    rw [hsplit, List.dropLast_append_of_ne_nil _ hb2]
  · rw [h2]
    show (splitNN b2).getLastD [] = (splitNN (b1 ++ b2)).getLastD []
    rw [hsplit, getLastD_append_of_ne_nil _ _ _ hb2]
  · exact hasNN_splitNN (b1 ++ b2) _ (getLastD_mem [] hb12)
  · show joinNN ((splitNN (b1 ++ b2)).dropLast ++
      [(splitNN (b1 ++ b2)).getLastD []]) = b1 ++ b2
    rw [dropLast_concat_getLastD [] hb12]
    exact joinNN_splitNN (b1 ++ b2)

/-- First chunk of the C9 witness: one complete `thinking` frame. -/
def chunkA : List Char := "event: thinking\ndata: 1\n\n".toList

/-- Second chunk of the C9 witness: a complete `action` frame plus a
trailing partial frame. -/
def chunkB : List Char := "event: action\ndata: 2\n\nevent: comp".toList

/-- Witness for C9 on concrete chunks: frames concatenate across the
boundary exactly as for the whole buffer, and the partial trailing
frame stays in the buffer. -/
theorem parser_chunk_split_witness :
    (sseFeed [] chunkA).1 ++ (sseFeed (sseFeed [] chunkA).2 chunkB).1 =
      (sseFeed [] (chunkA ++ chunkB)).1 ∧
    hasNN (sseFeed [] (chunkA ++ chunkB)).2 = false := by
  have h := parser_chunk_split chunkA chunkB (by rfl)
  exact ⟨h.2.2.2.1, h.2.2.2.2.2.1⟩

/-! ## C5: malformed frames are dropped in isolation -/

/-- Claim C5: a frame that is blank, missing its `event:` line,
missing its `data:` line, or whose payload fails to decode is dropped
without affecting anything else: the dispatched frames of the stream
and the store state after processing are exactly those of the same
stream with the malformed frame removed (in particular the step count
is unchanged). -/
theorem malformed_frame_isolation (decode : List Char → Option Payload)
    (xs ys : List (List Char)) (e : List Char) (st : StoreState) (now : Nat)
    (hmal : (extractTypeData (splitN1 e)).1 = [] ∨
            (extractTypeData (splitN1 e)).2 = [] ∨
            decode (extractTypeData (splitN1 e)).2 = none) :
    List.filterMap (parseEventStr decode) (xs ++ e :: ys) =
      List.filterMap (parseEventStr decode) (xs ++ ys) ∧
    processEvents decode st (xs ++ e :: ys) now =
      processEvents decode st (xs ++ ys) now := by
  have hp : parseEventStr decode e = none := by
    unfold parseEventStr
    by_cases hb : (e.all Char.isWhitespace) = true
    · rw [if_pos hb]
    · rw [if_neg hb]
      by_cases h12 : (extractTypeData (splitN1 e)).1 = [] ∨
          (extractTypeData (splitN1 e)).2 = []
      · rw [if_pos h12]
      · rw [if_neg h12]
        have hdec : decode (extractTypeData (splitN1 e)).2 = none := by
          rcases hmal with h | h | h
          · exact absurd (Or.inl h) h12
          · exact absurd (Or.inr h) h12
          · exact h
        rw [hdec]
  constructor
  · rw [List.filterMap_append, List.filterMap_append,
      List.filterMap_cons_none hp]
  · unfold processEvents
    rw [List.foldl_append, List.foldl_append, List.foldl_cons]
    have hstep : handleEventStr decode now (xs.foldl (handleEventStr decode now) st) e =
        xs.foldl (handleEventStr decode now) st := by
      unfold handleEventStr
      rw [hp]
    rw [hstep]

/-- Decoder for the C5 witness: only the payload text `1` decodes. -/
def decodeW : List Char → Option Payload :=
  fun l => if l = "1".toList then some {} else none

/-- A well-formed frame string for the C5 witness. -/
def frameOk : List Char := "event: thinking\ndata: 1".toList

/-- A malformed frame string (no `data:` line) for the C5 witness. -/
def frameBad : List Char := "event: thinking".toList

/-- Witness for C5: dropping the concrete malformed frame between two
valid `thinking` frames leaves the dispatched frames and the resulting
state (hence the step count) unchanged. -/
theorem malformed_frame_isolation_witness :
    List.filterMap (parseEventStr decodeW) [frameOk, frameBad, frameOk] =
      List.filterMap (parseEventStr decodeW) [frameOk, frameOk] ∧
    processEvents decodeW initialState [frameOk, frameBad, frameOk] 0 =
      processEvents decodeW initialState [frameOk, frameOk] 0 := by
  have h := malformed_frame_isolation decodeW [frameOk] [frameOk] frameBad
    initialState 0 (Or.inr (Or.inl rfl))
  exact h
